import Mathlib

/-!
Verification of the execution core of the `crush` structured-data command
language: the scope tree with its break/continue control signalling
(`src/scope/data.rs`), the closure pipeline driver (`src/lang/command.rs`),
the record ("struct") type with parent delegation (`src/lang/struct.rs`),
and the `for` iteration driver (`src/lib/control/for.rs`).

Modelling conventions:
* Rust `Value` is external to this core; the spec only requires type-tag
  equality, so it is embedded as a small inductive with a `valueType`
  projection.
* `HashMap<String, Value>` and `OrderedMap<String, usize>` are embedded as
  association lists (`List (String × _)`) with first-occurrence lookup,
  replace-in-place insert and first-occurrence removal, which is their
  observable map semantics (`OrderedMap` additionally preserves insertion
  order, which the list does as well).
* A scope node (`ScopeData`) carries two optional references: the lexical
  `parent_scope` and the dynamic `calling_scope`.  Each operation of
  `ScopeData` walks exactly one of the two (acyclic) chains, so an
  operation is embedded as a function on the list of nodes visited along
  its chain, head first (the node the operation is issued on), mutation
  returned as the updated list.  The `uses` field is never read by any
  operation in `data.rs` and is omitted.
-/

namespace Crush

/-- Runtime values, reduced to the constructors and the type-tag equality
this core observes (`Value::value_type`). -/
inductive Value where
  | integer (i : Int)
  | str (s : String)
  | bool (b : Bool)
  | field (f : List String)
  | empty
deriving DecidableEq, Repr

/-- Runtime type tags, with decidable equality (`ValueType: PartialEq`). -/
inductive ValueType where
  | integer
  | str
  | bool
  | field
  | empty
deriving DecidableEq, Repr

/-- Embeds `Value::value_type`. -/
def Value.valueType : Value → ValueType
  | .integer _ => .integer
  | .str _ => .str
  | .bool _ => .bool
  | .field _ => .field
  | .empty => .empty

/-- First-occurrence lookup in an association list; embeds map `get`. -/
def lookupA {α : Type} : List (String × α) → String → Option α
  | [], _ => none
  | p :: r, n => if p.1 = n then some p.2 else lookupA r n

/-- Replace-in-place-or-append insert; embeds map `insert`. -/
def insertA {α : Type} : List (String × α) → String → α → List (String × α)
  | [], n, v => [(n, v)]
  | p :: r, n, v => if p.1 = n then (n, v) :: r else p :: insertA r n v

/-- First-occurrence removal; embeds map `remove` (the returned old value is
read separately through `lookupA`). -/
def removeA {α : Type} : List (String × α) → String → List (String × α)
  | [], _ => []
  | p :: r, n => if p.1 = n then r else p :: removeA r n

/-- One scope node (`ScopeData`), without its two chain references, which
are materialised as the position of the node in the chain list an
operation traverses. -/
structure Sc where
  data : List (String × Value)
  is_loop : Bool
  is_stopped : Bool
  is_readonly : Bool
deriving DecidableEq, Repr

instance : Inhabited Sc := ⟨⟨[], false, false, false⟩⟩

/-- Embeds `ScopeData::do_break` on the dynamic-caller chain, head first:
readonly refuses; a loop frame is marked stopped and absorbs the signal;
otherwise the signal is delegated to the caller chain and, only on
success there, this frame is also marked stopped.  An empty tail plays
`calling_scope == None` (`unwrap_or(false)`). -/
def doBreak : List Sc → Bool × List Sc
  | [] => (false, [])
  | f :: r =>
    if f.is_readonly then (false, f :: r)
    else if f.is_loop then (true, { f with is_stopped := true } :: r)
    else
      match doBreak r with
      | (true, r2) => (true, { f with is_stopped := true } :: r2)
      | (false, r2) => (false, f :: r2)

/-- Embeds `ScopeData::do_continue`: identical delegation except that a
loop frame absorbs the signal without marking itself stopped. -/
def doContinue : List Sc → Bool × List Sc
  | [] => (false, [])
  | f :: r =>
    if f.is_readonly then (false, f :: r)
    else if f.is_loop then (true, f :: r)
    else
      match doContinue r with
      | (true, r2) => (true, { f with is_stopped := true } :: r2)
      | (false, r2) => (false, f :: r2)

/-- Success condition shared by break and continue: walking the chain from
the origin, the first frame that is readonly or a loop frame exists and is
a (non-readonly) loop frame. -/
def loopSignalOk : List Sc → Bool
  | [] => false
  | f :: r =>
    if f.is_readonly then false
    else if f.is_loop then true
    else loopSignalOk r

/-- Marks a frame stopped. -/
def markStopped (f : Sc) : Sc := { f with is_stopped := true }

/-- Frames marked by a successful break: every frame up to and including
the first loop frame. -/
def markBreak : List Sc → List Sc
  | [] => []
  | f :: r =>
    if f.is_loop then markStopped f :: r
    else markStopped f :: markBreak r

/-- Frames marked by a successful continue: every frame strictly before
the first loop frame. -/
def markCont : List Sc → List Sc
  | [] => []
  | f :: r =>
    if f.is_loop then f :: r
    else markStopped f :: markCont r

/-- Errors raised by `ScopeData::set` (`errors.rs` messages reduced to
their identity). -/
inductive SErr where
  | unknownVariable (name : String)
  | readonlyScope
  | typeMismatch
deriving DecidableEq, Repr

/-- Embeds `ScopeData::set` on the lexical-parent chain, head first: a name
missing locally delegates to the parent chain (an empty tail plays
`parent_scope == None`, the unknown-variable error); a locally declared
name is rejected when this scope is readonly, rejected on a runtime-type
change, and replaced otherwise.  The returned list is the post-state of
the chain (the source mutates in place only on the success path). -/
def setChain : List Sc → String → Value → Except SErr Unit × List Sc
  | [], n, _ => (.error (.unknownVariable n), [])
  | s :: rest, n, v =>
    match lookupA s.data n with
    | none =>
      let res := setChain rest n v
      (res.1, s :: res.2)
    | some old =>
      if s.is_readonly then (.error .readonlyScope, s :: rest)
      else if old.valueType ≠ v.valueType then (.error .typeMismatch, s :: rest)
      else (.ok Unit.unit, { s with data := insertA s.data n v } :: rest)

/-- Embeds `ScopeData::remove` on the lexical-parent chain, head first: a
name missing locally delegates; a locally declared name is dropped and
returned unless this scope is readonly, in which case nothing changes and
`none` is returned. -/
def removeChain : List Sc → String → Option Value × List Sc
  | [], _ => (none, [])
  | s :: rest, n =>
    match lookupA s.data n with
    | none =>
      let res := removeChain rest n
      (res.1, s :: res.2)
    | some old =>
      if s.is_readonly then (none, s :: rest)
      else (some old, { s with data := removeA s.data n } :: rest)

/-- A record (`Struct` wrapping `StructData`): an ordered name-to-index
map (`OrderedMap<String, usize>`), a parallel cell vector and an optional
parent record for delegation.  The shared mutable backing (`Arc<Mutex<_>>`)
is embedded purely: an operation that mutates the record returns the
updated record, and never touches the parent component, so aliasing
effects on a shared parent cannot occur in the operations embedded here
(nor do they in the source, whose mutating operations lock and write only
`self.data`). -/
inductive Struct where
  | mk (lookup : List (String × Nat)) (cells : List Value) (parent : Option Struct)

/-- The name-to-index map of the record. -/
def Struct.lookup : Struct → List (String × Nat)
  | .mk l _ _ => l

/-- The local cell vector of the record. -/
def Struct.cells : Struct → List Value
  | .mk _ c _ => c

/-- The delegation parent of the record. -/
def Struct.parent : Struct → Option Struct
  | .mk _ _ p => p

/-- Embeds `Struct::new`: each pair in order is appended, the index being
the current cell count. -/
def Struct.new (vec : List (String × Value)) (parent : Option Struct) : Struct :=
  let z := vec.foldl
    (fun (acc : List (String × Nat) × List Value) kv =>
      (insertA acc.1 kv.1 acc.2.length, acc.2 ++ [kv.2]))
    ([], [])
  .mk z.1 z.2 parent

/-- Embeds `Struct::get`: local index lookup, the cell on a hit, otherwise
delegation to the parent chain (`none` at the root).  Cell indices are in
range for every record built by the constructors; the mathematically total
embedding reads out-of-range indices as `Value.empty`.  The source's match
on the optional parent after a local miss is lifted into the top-level
pattern so the recursion is structural. -/
def Struct.get : Struct → String → Option Value
  | .mk l c none, n =>
    match lookupA l n with
    | some idx => some (c.getD idx Value.empty)
    | none => none
  | .mk l c (some parent), n =>
    match lookupA l n with
    | some idx => some (c.getD idx Value.empty)
    | none => parent.get n

/-- Embeds `Struct::set`: a locally absent name is appended (index = map
size) returning `none`; a locally present name has its cell replaced in
place, the previous cell returned.  The parent is never touched. -/
def Struct.set : Struct → String → Value → Option Value × Struct
  | .mk l c p, n, v =>
    match lookupA l n with
    | none => (none, .mk (l ++ [(n, l.length)]) (c ++ [v]) p)
    | some idx => (some (c.getD idx Value.empty), .mk l (c.set idx v) p)

/-- The local step of `Struct::fill_map`: each local field in declaration
order is appended to the accumulator unless its name is already
present. -/
def fillLocal (l : List (String × Nat)) (c : List Value)
    (dest : List (String × Value)) : List (String × Value) :=
  l.foldl
    (fun d kv =>
      if (lookupA d kv.1).isSome then d
      else d ++ [(kv.1, c.getD kv.2 Value.empty)])
    dest

/-- Embeds `Struct::fill_map`: local fields are added to the accumulator
first, then the parent is merged, so nearer definitions shadow farther
ones (the match on the optional parent is lifted into the top-level
pattern so the recursion is structural). -/
def Struct.fillMap : Struct → List (String × Value) → List (String × Value)
  | .mk l c none, dest => fillLocal l c dest
  | .mk l c (some parent), dest => parent.fillMap (fillLocal l c dest)

/-- Embeds `Struct::map` (the fully merged visible field map, in order). -/
def Struct.mapMerged (s : Struct) : List (String × Value) :=
  s.fillMap []

/-- Embeds `impl PartialEq for Struct`: cell sequences must have equal
length and be pairwise equal, and every (name, index) entry of the left
record's map must be present with the same index in the right record's
map; the parents are never consulted. -/
def structEq (a b : Struct) : Bool :=
  (a.cells.length == b.cells.length) &&
  (a.cells.zip b.cells).all (fun q => q.1 == q.2) &&
  a.lookup.all (fun kv => lookupA b.lookup kv.1 == some kv.2)

/-- One primitive write to the hasher state: a cell value, or the
discriminant of the optional parent. -/
inductive HAtom where
  | val (v : Value)
  | tagNone
  | tagSome
deriving DecidableEq, Repr

/-- Embeds `impl Hash for Struct` as the sequence of primitive writes fed
to the hasher: every local cell value in order, then the optional parent
(its `Option` discriminant followed, when present, by the parent's own
writes).  Field names are never written.  Two records feed the hasher
identically iff their traces are equal. -/
def hashTrace : Struct → List HAtom
  | .mk _ c none => (c.map HAtom.val) ++ [HAtom.tagNone]
  | .mk _ c (some parent) => (c.map HAtom.val) ++ (HAtom.tagSome :: hashTrace parent)

/-- Stream errors of the record-as-stream adapter: `error("EOF")` from
`StructReader::read` and `RecvTimeoutError::Disconnected` from
`StructReader::read_timeout`. -/
inductive StreamErr where
  | eof
  | disconnected
deriving DecidableEq, Repr

/-- Embeds `StructReader`: the merged visible field map, resolved once at
construction, plus a read cursor. -/
structure StructReader where
  idx : Nat
  rows : List (String × Value)
deriving DecidableEq, Repr

/-- Embeds `StructReader::new`: resolves `s.map()` once. -/
def StructReader.new (s : Struct) : StructReader :=
  ⟨0, s.mapMerged⟩

/-- Embeds `StructReader::read`: past the end fails with `EOF`; otherwise
the cursor advances and the current (name, value) pair is returned as a
two-column row, the consumed slot being overwritten with an inert pair
(the stream is not restartable). -/
def StructReader.read (r : StructReader) : Except StreamErr (List Value × StructReader) :=
  if r.rows.length ≤ r.idx then .error .eof
  else
    let kv := r.rows.getD r.idx ("", Value.empty)
    .ok ([Value.str kv.1, kv.2], ⟨r.idx + 1, r.rows.set r.idx ("", Value.empty)⟩)

/-- Embeds `StructReader::read_timeout`: the timeout argument is ignored;
a plain read's row is passed through and any plain-read failure is
reported as a disconnected stream. -/
def StructReader.read_timeout (r : StructReader) (_timeout : Int) :
    Except StreamErr (List Value × StructReader) :=
  match r.read with
  | .ok x => .ok x
  | .error _ => .error .disconnected

/-- Failures of a closure invocation: the empty-body definitional error,
or a failure of the stage at the given index propagated out by `?`. -/
inductive PErr where
  | emptyClosure
  | stageFailed (idx : Nat)
deriving DecidableEq, Repr

/-- Stream endpoints a pipeline stage can be wired to: the call's own
input, the call's own output, the fresh empty/closed channel
(`empty_channel()`), or the fresh background sink created by the n-th
`spawn_print_thread()` call (tagged by the index of the stage it serves,
each being a distinct fresh sink). -/
inductive Channel where
  | callerInput
  | callerOutput
  | emptyCh
  | printSink (idx : Nat)
deriving DecidableEq, Repr

/-- One executed stage in a pipeline run: its index and the two stream
endpoints it was invoked with. -/
structure RunItem where
  stage : Nat
  input : Channel
  output : Channel
deriving DecidableEq, Repr

/-- A stage body abstracted by its observable effect on the shared child
scope between stage boundaries: given the scope's stopped flag when the
stage starts, running the stage to completion (`invoke` plus `join`)
either fails or yields the flag's value after the stage. -/
def StageB : Type := Bool → Except PErr Bool

/-- The stopped flag of the freshly created child scope
(`ScopeData::new` sets `is_stopped = false`). -/
def freshStopped : Bool := false

/-- Embeds the interior-and-final part of the multi-stage arm of
`Closure::invoke` (lines 299-313): `cur` is the stage at index `i`; when
further stages remain, `cur` runs against the empty channel and a fresh
background sink and, if the scope is stopped after it, the invocation
returns success at once; the final stage runs against the empty channel
and the call's real output. -/
def runPipe : StageB → List StageB → Nat → Bool → Except PErr (Bool × List RunItem)
  | cur, [], i, st =>
    match cur st with
    | .error e => .error e
    | .ok st2 => .ok (st2, [⟨i, .emptyCh, .callerOutput⟩])
  | cur, next :: rest, i, st =>
    match cur st with
    | .error e => .error e
    | .ok st2 =>
      if st2 then .ok (st2, [⟨i, .emptyCh, .printSink i⟩])
      else
        match runPipe next rest (i + 1) st2 with
        | .error e => .error e
        | .ok (st3, tr) => .ok (st3, ⟨i, .emptyCh, .printSink i⟩ :: tr)

/-- Embeds the stage-dispatch of `Closure::invoke` (lines 276-316) over
the freshly created child scope: zero stages is the empty-body error; a
single stage runs with the call's own input and output; with more stages,
stage 0 runs with the call's input and a fresh background sink and the
rest run through `runPipe`, the stopped flag checked after every stage.
The result carries the scope's final stopped flag and the trace of
executed stages. -/
def closureInvoke (stages : List StageB) : Except PErr (Bool × List RunItem) :=
  match stages with
  | [] => .error .emptyClosure
  | [b] =>
    if freshStopped then .ok (freshStopped, [])
    else
      match b freshStopped with
      | .error e => .error e
      | .ok st => .ok (st, [⟨0, .callerInput, .callerOutput⟩])
  | b0 :: b1 :: rest =>
    if freshStopped then .ok (freshStopped, [])
    else
      match b0 freshStopped with
      | .error e => .error e
      | .ok st1 =>
        if st1 then .ok (st1, [⟨0, .callerInput, .printSink 0⟩])
        else
          match runPipe b1 rest 1 st1 with
          | .error e => .error e
          | .ok (st2, tr) => .ok (st2, ⟨0, .callerInput, .printSink 0⟩ :: tr)

/-- A call argument: an optional name and a value. -/
structure Argument where
  name : Option String
  value : Value
deriving DecidableEq, Repr

/-- A scope node as created by closure invocation, its two chain
references recorded as opaque scope ids. -/
structure NewScope where
  parent_scope : Option Nat
  calling_scope : Option Nat
  is_loop : Bool
  data : List (String × Value)
  is_stopped : Bool
  is_readonly : Bool
deriving DecidableEq, Repr

/-- Modelled from the spec: `Scope::create_child` (the `Scope` wrapper
around `ScopeData` is not among the sources; spec §6 "create a child
scope") builds a fresh node through `ScopeData::new` — which is in the
sources: empty bindings, not stopped, not readonly — with the receiver of
the call as lexical parent and the argument scope as dynamic caller. -/
def createChild (selfId callerId : Nat) (loopFlag : Bool) : NewScope :=
  { parent_scope := some selfId, calling_scope := some callerId,
    is_loop := loopFlag, data := [], is_stopped := false, is_readonly := false }

/-- Modelled from the spec: `Scope::redeclare` (spec §6 "bind/rebind a
name in a given scope") binds the name in the given scope
unconditionally. -/
def redeclare (env : NewScope) (n : String) (v : Value) : NewScope :=
  { env with data := insertA env.data n v }

/-- Embeds `Closure::push_arguments_to_env` (the `for arg in
arguments.drain(..)` loop): every named argument is bound into the scope
in order, unnamed arguments are skipped. -/
def pushArgumentsToEnv : List Argument → NewScope → NewScope
  | [], env => env
  | a :: rest, env =>
    match a.name with
    | some n => pushArgumentsToEnv rest (redeclare env n a.value)
    | none => pushArgumentsToEnv rest env

/-- Embeds the environment-setup prefix of `Closure::invoke` (lines
267-274): a child of the closure's captured defining scope with the
invoking context's environment as dynamic caller and `is_loop = false`;
the receiver, when supplied, is bound as `this`; then the named arguments
are bound. -/
def closureEnvSetup (closureEnvId ctxEnvId : Nat) (thisV : Option Value)
    (args : List Argument) : NewScope :=
  let env := createChild closureEnvId ctxEnvId false
  let env2 :=
    match thisV with
    | some t => redeclare env "this" t
    | none => env
  pushArgumentsToEnv args env2

/-- The per-iteration scope of the `for` driver:
`context.env.create_child(&context.env, true)` — fresh bindings,
`is_loop = true`, not stopped, not readonly (`Scope::create_child` is
modelled from the spec, wrapping `ScopeData::new` which is in the
sources). -/
def freshLoopScope : Sc :=
  { data := [], is_loop := true, is_stopped := false, is_readonly := false }

/-- Embeds the iteration loop of `r#for` (for.rs lines 19-55), the body
command abstracted by its observable effect on the per-iteration loop
scope: for each input row a fresh loop scope is created and the body
invoked in it; after the body returns, iteration ends exactly when that
scope's stopped flag is set.  The result is the list of rows for which
the body ran. -/
def forDriver {α : Type} : List α → (α → Sc → Sc) → List α
  | [], _ => []
  | r :: rest, body =>
    if (body r freshLoopScope).is_stopped then [r]
    else r :: forDriver rest body

/-! Helper lemmas. -/

theorem lookupA_insertA_self {α : Type} (l : List (String × α)) (n : String) (v : α) :
    lookupA (insertA l n v) n = some v := by
  induction l with
  | nil => simp [insertA, lookupA]
  | cons p r ih =>
    by_cases h : p.1 = n
    · simp [insertA, lookupA, h]
    · simp [insertA, lookupA, h, ih]

theorem lookupA_insertA_ne {α : Type} (l : List (String × α)) (n m : String) (v : α)
    (h : m ≠ n) : lookupA (insertA l n v) m = lookupA l m := by
  induction l with
  | nil => simp [insertA, lookupA, Ne.symm h]
  | cons p r ih =>
    by_cases hp : p.1 = n
    · have hpm : ¬ p.1 = m := by rw [hp]; exact Ne.symm h
      simp [insertA, lookupA, hp, hpm, Ne.symm h]
    · simp [insertA, lookupA, hp, ih]

theorem lookupA_mem {α : Type} (l : List (String × α)) (n : String) (x : α)
    (h : lookupA l n = some x) : (n, x) ∈ l := by
  induction l with
  | nil => simp [lookupA] at h
  | cons p r ih =>
    by_cases hp : p.1 = n
    · simp [lookupA, hp] at h
      have hpx : (n, x) = p := by
        cases p
        simp_all
      rw [hpx]
      exact List.mem_cons_self _ _
    · simp [lookupA, hp] at h
      exact List.mem_cons_of_mem _ (ih h)

theorem lookupA_append_of_none {α : Type} (l l2 : List (String × α)) (n : String)
    (h : lookupA l n = none) : lookupA (l ++ l2) n = lookupA l2 n := by
  induction l with
  | nil => simp
  | cons p r ih =>
    by_cases hp : p.1 = n
    · simp [lookupA, hp] at h
    · simp [lookupA, hp] at h ⊢
      exact ih h

theorem Struct.get_mk_hit (l : List (String × Nat)) (c : List Value) (p : Option Struct)
    (n : String) (idx : Nat) (h : lookupA l n = some idx) :
    (Struct.mk l c p).get n = some (c.getD idx Value.empty) := by
  cases p <;> simp [Struct.get, h]

theorem Struct.get_mk_miss (l : List (String × Nat)) (c : List Value) (p : Option Struct)
    (n : String) (h : lookupA l n = none) :
    (Struct.mk l c p).get n = (match p with | none => none | some q => q.get n) := by
  cases p <;> simp [Struct.get, h]

theorem push_meta (args : List Argument) (env : NewScope) :
    (pushArgumentsToEnv args env).parent_scope = env.parent_scope ∧
    (pushArgumentsToEnv args env).calling_scope = env.calling_scope ∧
    (pushArgumentsToEnv args env).is_loop = env.is_loop := by
  induction args generalizing env with
  | nil => exact ⟨rfl, rfl, rfl⟩
  | cons a rest ih =>
    cases ha : a.name with
    | none => simpa [pushArgumentsToEnv, ha] using ih env
    | some m => simpa [pushArgumentsToEnv, ha, redeclare] using ih (redeclare env m a.value)

theorem push_not_named (args : List Argument) (env : NewScope) (n : String)
    (h : ∀ a ∈ args, a.name ≠ some n) :
    lookupA (pushArgumentsToEnv args env).data n = lookupA env.data n := by
  induction args generalizing env with
  | nil => rfl
  | cons a rest ih =>
    have htail : ∀ b ∈ rest, b.name ≠ some n := fun b hb => h b (List.mem_cons_of_mem _ hb)
    cases ha : a.name with
    | none => simpa [pushArgumentsToEnv, ha] using ih env htail
    | some m =>
      have hmn : n ≠ m := by
        intro he
        exact h a (List.mem_cons_self _ _) (by rw [ha, he])
      rw [pushArgumentsToEnv]
      simp only [ha]
      rw [ih (redeclare env m a.value) htail]
      simp [redeclare, lookupA_insertA_ne _ _ _ _ hmn]

theorem push_named (args : List Argument) (env : NewScope)
    (hnd : (args.filterMap Argument.name).Nodup) (a : Argument) (ha : a ∈ args)
    (n : String) (hn : a.name = some n) :
    lookupA (pushArgumentsToEnv args env).data n = some a.value := by
  induction args generalizing env with
  | nil => simp at ha
  | cons b rest ih =>
    rcases List.mem_cons.mp ha with hab | harest
    · subst hab
      rw [pushArgumentsToEnv]
      simp only [hn]
      have hnotin : ∀ b2 ∈ rest, b2.name ≠ some n := by
        intro b2 hb2 hb2n
        have h1 : n ∈ rest.filterMap Argument.name :=
          List.mem_filterMap.mpr ⟨b2, hb2, hb2n⟩
        have h2 : (rest.filterMap Argument.name).Nodup ∧ n ∉ rest.filterMap Argument.name := by
          have := hnd
          rw [List.filterMap_cons, hn] at this
          exact ⟨(List.nodup_cons.mp this).2, (List.nodup_cons.mp this).1⟩
        exact h2.2 h1
      rw [push_not_named rest _ n hnotin]
      simp [redeclare, lookupA_insertA_self]
    · have htail : (rest.filterMap Argument.name).Nodup := by
        rw [List.filterMap_cons] at hnd
        cases hb : b.name with
        | none => rwa [hb] at hnd
        | some m =>
          rw [hb] at hnd
          exact (List.nodup_cons.mp hnd).2
      cases hb : b.name with
      | none => simpa [pushArgumentsToEnv, hb] using ih env htail harest
      | some m => simpa [pushArgumentsToEnv, hb] using ih (redeclare env m b.value) htail harest

theorem push_domain (args : List Argument) (env : NewScope) (n : String)
    (h : lookupA (pushArgumentsToEnv args env).data n ≠ none) :
    lookupA env.data n ≠ none ∨ ∃ a ∈ args, a.name = some n := by
  induction args generalizing env with
  | nil => exact Or.inl h
  | cons b rest ih =>
    cases hb : b.name with
    | none =>
      rw [pushArgumentsToEnv] at h
      simp only [hb] at h
      rcases ih env h with h1 | ⟨a, ha, han⟩
      · exact Or.inl h1
      · exact Or.inr ⟨a, List.mem_cons_of_mem _ ha, han⟩
    | some m =>
      rw [pushArgumentsToEnv] at h
      simp only [hb] at h
      rcases ih (redeclare env m b.value) h with h1 | ⟨a, ha, han⟩
      · by_cases hnm : n = m
        · exact Or.inr ⟨b, List.mem_cons_self _ _, by rw [hb, hnm]⟩
        · rw [redeclare] at h1
          simp only at h1
          rw [lookupA_insertA_ne _ _ _ _ hnm] at h1
          exact Or.inl h1
      · exact Or.inr ⟨a, List.mem_cons_of_mem _ ha, han⟩

theorem doBreak_eq (c : List Sc) :
    doBreak c = if loopSignalOk c then (true, markBreak c) else (false, c) := by
  induction c with
  | nil => simp [doBreak, loopSignalOk]
  | cons f r ih =>
    by_cases hro : f.is_readonly
    · simp [doBreak, loopSignalOk, hro]
    · by_cases hlp : f.is_loop
      · simp [doBreak, loopSignalOk, markBreak, hro, hlp, markStopped]
      · by_cases hok : loopSignalOk r
        · simp [doBreak, loopSignalOk, markBreak, hro, hlp, hok, ih, markStopped]
        · simp [doBreak, loopSignalOk, hro, hlp, hok, ih]

theorem doContinue_eq (c : List Sc) :
    doContinue c = if loopSignalOk c then (true, markCont c) else (false, c) := by
  induction c with
  | nil => simp [doContinue, loopSignalOk]
  | cons f r ih =>
    by_cases hro : f.is_readonly
    · simp [doContinue, loopSignalOk, hro]
    · by_cases hlp : f.is_loop
      · simp [doContinue, loopSignalOk, markCont, hro, hlp]
      · by_cases hok : loopSignalOk r
        · simp [doContinue, loopSignalOk, markCont, hro, hlp, hok, ih, markStopped]
        · simp [doContinue, loopSignalOk, hro, hlp, hok, ih]

/-! Claim theorems: closure invocation (C5, C6). -/

/-- C5 (confirmed; `Scope::create_child` and `Scope::redeclare` modelled
from the spec).  Invoking a closure sets up a child scope whose lexical
parent is the scope captured at the closure's definition site, whose
dynamic caller is the invoking context's environment, and whose
`is_loop` is false; a supplied receiver is bound under `this` (here
stated when no argument is also named `this`, which would rebind it);
every named argument is bound to its value (stated for duplicate-free
names, the last binding winning otherwise); nothing else is bound — in
particular no positional/unnamed argument; and a closure with an empty
stage list fails with the empty-body error without running any stage. -/
theorem closure_invocation_child_env (clEnv ctxEnv : Nat) (thisV : Option Value)
    (args : List Argument) :
    (closureEnvSetup clEnv ctxEnv thisV args).parent_scope = some clEnv ∧
    (closureEnvSetup clEnv ctxEnv thisV args).calling_scope = some ctxEnv ∧
    (closureEnvSetup clEnv ctxEnv thisV args).is_loop = false ∧
    (∀ t, thisV = some t → (∀ a ∈ args, a.name ≠ some "this") →
      lookupA (closureEnvSetup clEnv ctxEnv thisV args).data "this" = some t) ∧
    ((args.filterMap Argument.name).Nodup →
      ∀ a ∈ args, ∀ n, a.name = some n →
        lookupA (closureEnvSetup clEnv ctxEnv thisV args).data n = some a.value) ∧
    (∀ n, lookupA (closureEnvSetup clEnv ctxEnv thisV args).data n ≠ none →
      (thisV ≠ none ∧ n = "this") ∨ ∃ a ∈ args, a.name = some n) ∧
    closureInvoke [] = .error .emptyClosure := by
  refine ⟨?_, ?_, ?_, ?_, ?_, ?_, rfl⟩
  · cases thisV with
    | none =>
      have h := (push_meta args (createChild clEnv ctxEnv false)).1
      simpa [closureEnvSetup, createChild] using h
    | some t =>
      have h := (push_meta args (redeclare (createChild clEnv ctxEnv false) "this" t)).1
      simpa [closureEnvSetup, createChild, redeclare] using h
  · cases thisV with
    | none =>
      have h := (push_meta args (createChild clEnv ctxEnv false)).2.1
      simpa [closureEnvSetup, createChild] using h
    | some t =>
      have h := (push_meta args (redeclare (createChild clEnv ctxEnv false) "this" t)).2.1
      simpa [closureEnvSetup, createChild, redeclare] using h
  · cases thisV with
    | none =>
      have h := (push_meta args (createChild clEnv ctxEnv false)).2.2
      simpa [closureEnvSetup, createChild] using h
    | some t =>
      have h := (push_meta args (redeclare (createChild clEnv ctxEnv false) "this" t)).2.2
      simpa [closureEnvSetup, createChild, redeclare] using h
  · intro t ht hno
    subst ht
    have h := push_not_named args (redeclare (createChild clEnv ctxEnv false) "this" t)
      "this" hno
    simp only [closureEnvSetup]
    rw [h]
    simp [redeclare, createChild, insertA, lookupA]
  · intro hnd a ha n hn
    cases thisV with
    | none => exact push_named args (createChild clEnv ctxEnv false) hnd a ha n hn
    | some t =>
      exact push_named args (redeclare (createChild clEnv ctxEnv false) "this" t) hnd a ha n hn
  · intro n h
    cases thisV with
    | none =>
      simp only [closureEnvSetup] at h
      rcases push_domain args (createChild clEnv ctxEnv false) n h with h1 | h2
      · simp [createChild, lookupA] at h1
      · exact Or.inr h2
    | some t =>
      simp only [closureEnvSetup] at h
      rcases push_domain args (redeclare (createChild clEnv ctxEnv false) "this" t) n h
        with h1 | h2
      · by_cases hthis : n = "this"
        · exact Or.inl ⟨by simp, hthis⟩
        · rw [redeclare] at h1
          simp only [createChild] at h1
          rw [insertA] at h1
          simp only [lookupA] at h1
          rw [if_neg (fun he => hthis he.symm)] at h1
          simp [lookupA] at h1
      · exact Or.inr h2

/-- C5 witness: a closure captured in scope 0 invoked from scope 1 with a
receiver and one named plus one unnamed argument. -/
theorem closure_invocation_child_env_witness :
    (closureEnvSetup 0 1 (some (Value.integer 3))
      [⟨some "p", Value.integer 4⟩, ⟨none, Value.integer 9⟩]).parent_scope = some 0 ∧
    lookupA (closureEnvSetup 0 1 (some (Value.integer 3))
      [⟨some "p", Value.integer 4⟩, ⟨none, Value.integer 9⟩]).data "this" =
      some (Value.integer 3) ∧
    lookupA (closureEnvSetup 0 1 (some (Value.integer 3))
      [⟨some "p", Value.integer 4⟩, ⟨none, Value.integer 9⟩]).data "p" =
      some (Value.integer 4) := by
  have h := closure_invocation_child_env 0 1 (some (Value.integer 3))
    [⟨some "p", Value.integer 4⟩, ⟨none, Value.integer 9⟩]
  refine ⟨h.1, h.2.2.2.1 (Value.integer 3) rfl (by decide), ?_⟩
  exact h.2.2.2.2.1 (by decide) ⟨some "p", Value.integer 4⟩ (by decide) "p" rfl

theorem runPipe_ok (rest : List StageB) (cur : StageB) (i : Nat) (st st' : Bool)
    (tr : List RunItem) (h : runPipe cur rest i st = .ok (st', tr)) :
    tr.map RunItem.stage = List.range' i tr.length ∧
    tr ≠ [] ∧ tr.length ≤ rest.length + 1 ∧
    ∀ it ∈ tr, it.input = Channel.emptyCh ∧
      it.output = (if it.stage = i + rest.length then Channel.callerOutput
        else Channel.printSink it.stage) := by
  induction rest generalizing cur i st st' tr with
  | nil =>
    cases hc : cur st with
    | error e => simp [runPipe, hc] at h
    | ok st2 =>
      simp only [runPipe, hc] at h
      obtain ⟨h1, h2⟩ := Prod.mk.injEq .. ▸ (Except.ok.injEq .. ▸ h)
      subst h1
      subst h2
      refine ⟨by simp [List.range'_one], by simp, by simp, ?_⟩
      intro it hit
      simp only [List.mem_singleton] at hit
      subst hit
      simp
  | cons next rest' ih =>
    cases hc : cur st with
    | error e => simp [runPipe, hc] at h
    | ok st2 =>
      cases st2 with
      | true =>
        simp only [runPipe, hc, if_true] at h
        obtain ⟨h1, h2⟩ := Prod.mk.injEq .. ▸ (Except.ok.injEq .. ▸ h)
        subst h1
        subst h2
        refine ⟨by simp [List.range'_one], by simp, by simp, ?_⟩
        intro it hit
        simp only [List.mem_singleton] at hit
        subst hit
        simp only []
        have : ¬ (i = i + (rest'.length + 1)) := by omega
        simp [this]
      | false =>
        simp only [runPipe, hc, if_false] at h
        cases hr : runPipe next rest' (i + 1) false with
        | error e => rw [hr] at h; simp at h
        | ok pr =>
          rw [hr] at h
          simp only [] at h
          obtain ⟨st3, tr'⟩ := pr
          obtain ⟨h1, h2⟩ := Prod.mk.injEq .. ▸ (Except.ok.injEq .. ▸ h)
          subst h1
          subst h2
          obtain ⟨ihm, ihne, ihlen, ihit⟩ := ih next (i + 1) false st3 tr' hr
          refine ⟨?_, by simp, by simp; omega, ?_⟩
          · simp only [List.map_cons, ihm, List.length_cons]
            rw [List.range'_succ]
          · intro it hit
            rcases List.mem_cons.mp hit with hh | ht
            · subst hh
              have : ¬ (i = i + (rest'.length + 1)) := by omega
              simp [this]
            · obtain ⟨hin, hout⟩ := ihit it ht
              refine ⟨hin, ?_⟩
              rw [hout]
              have h2 : i + 1 + rest'.length = i + (next :: rest').length := by
                simp
                omega
              rw [h2]

/-- C6 (confirmed).  Multi-stage closure invocation: on any successful run
the trace of executed stages is stage 0 wired to the call's input and a
fresh background sink, followed by a contiguous ascending run of further
stages, each wired to the empty/closed channel and its own fresh
background sink — except the final stage (index N-1), which is wired to
the empty channel and the call's real output; stages run (and are waited
for) strictly in order, and the stopped flag is checked after every
stage.  Concretely, in a three-stage closure whose second stage sets the
stopped flag, the third stage never runs (any stage body whatsoever in
position 3 — it is never applied) and the invocation reports success. -/
theorem pipeline_stage_wiring :
    (∀ (b0 b1 : StageB) (rest : List StageB) (st : Bool) (tr : List RunItem),
      closureInvoke (b0 :: b1 :: rest) = .ok (st, tr) →
      ∃ tr', tr = ⟨0, Channel.callerInput, Channel.printSink 0⟩ :: tr' ∧
        tr'.map RunItem.stage = List.range' 1 tr'.length ∧
        tr'.length ≤ rest.length + 1 ∧
        ∀ it ∈ tr', it.input = Channel.emptyCh ∧
          it.output = (if it.stage = 1 + rest.length then Channel.callerOutput
            else Channel.printSink it.stage)) ∧
    (∀ b2 : StageB,
      closureInvoke [fun s => .ok s, fun _ => .ok true, b2] =
        .ok (true, [⟨0, Channel.callerInput, Channel.printSink 0⟩,
                    ⟨1, Channel.emptyCh, Channel.printSink 1⟩])) := by
  constructor
  · intro b0 b1 rest st tr h
    simp only [closureInvoke, freshStopped, Bool.false_eq_true, if_false] at h
    cases hb0 : b0 false with
    | error e => rw [hb0] at h; simp at h
    | ok st1 =>
      rw [hb0] at h
      cases st1 with
      | true =>
        simp at h
        obtain ⟨h1, h2⟩ := h
        subst h1
        subst h2
        exact ⟨[], rfl, rfl, by simp, by simp⟩
      | false =>
        simp only [Bool.false_eq_true, if_false] at h
        cases hr : runPipe b1 rest 1 false with
        | error e => rw [hr] at h; simp at h
        | ok pr =>
          rw [hr] at h
          obtain ⟨st2, tr2⟩ := pr
          simp only [] at h
          injection h with h'
          injection h' with h1 h2
          subst h1
          subst h2
          obtain ⟨ihm, ihne, ihlen, ihit⟩ := runPipe_ok rest b1 1 false st2 tr2 hr
          exact ⟨tr2, rfl, ihm, ihlen, ihit⟩
  · intro b2
    rfl

/-- C6 witness: a two-stage pipeline whose stages leave the flag alone
runs stage 0 on (caller input, background sink) and stage 1 on (empty
channel, caller output). -/
theorem pipeline_stage_wiring_witness :
    ∃ tr', ([⟨0, Channel.callerInput, Channel.printSink 0⟩,
             ⟨1, Channel.emptyCh, Channel.callerOutput⟩] : List RunItem) =
        ⟨0, Channel.callerInput, Channel.printSink 0⟩ :: tr' ∧
      tr'.map RunItem.stage = List.range' 1 tr'.length ∧
      tr'.length ≤ ([] : List StageB).length + 1 ∧
      ∀ it ∈ tr', it.input = Channel.emptyCh ∧
        it.output = (if it.stage = 1 + ([] : List StageB).length then Channel.callerOutput
          else Channel.printSink it.stage) :=
  pipeline_stage_wiring.1 (fun s => .ok s) (fun s => .ok s) [] false
    [⟨0, Channel.callerInput, Channel.printSink 0⟩, ⟨1, Channel.emptyCh, Channel.callerOutput⟩]
    rfl

/-! Claim theorems: records (C7, C8, C9). -/

/-- C7 (confirmed).  Record `get`/`set` with parent delegation, for any
record whose index map is consistent with its cell vector (as every
record built by the constructors is): `set` never touches the parent;
after `set` the name reads back as the new value; a locally present name
is replaced in place (previous value returned, index map and field count
unchanged, and the local value shadows any parent regardless of the
parent chain); a locally absent name is appended (returning `none`, local
field count grown by one) and, before the `set`, `get` on it delegated to
the parent chain. -/
theorem record_set_shadows_parent_intact (s : Struct) (n : String) (v : Value)
    (hlen : s.lookup.length = s.cells.length)
    (hidx : ∀ kv ∈ s.lookup, kv.2 < s.cells.length) :
    ((s.set n v).2).parent = s.parent ∧
    ((s.set n v).2).get n = some v ∧
    (∀ idx, lookupA s.lookup n = some idx →
      (s.set n v).1 = s.get n ∧
      ((s.set n v).2).lookup = s.lookup ∧
      ((s.set n v).2).cells.length = s.cells.length ∧
      ∀ q : Option Struct, (Struct.mk s.lookup s.cells q).get n = s.get n) ∧
    (lookupA s.lookup n = none →
      (s.set n v).1 = none ∧
      ((s.set n v).2).lookup.length = s.lookup.length + 1 ∧
      s.get n = (match s.parent with | none => none | some p => p.get n)) := by
  obtain ⟨l, c, p⟩ := s
  simp only [Struct.lookup, Struct.cells, Struct.parent] at hlen hidx ⊢
  cases h : lookupA l n with
  | none =>
    have h2 : lookupA (l ++ [(n, l.length)]) n = some l.length := by
      simp [lookupA_append_of_none _ _ _ h, lookupA]
    refine ⟨?_, ?_, ?_, ?_⟩
    · simp [Struct.set, Struct.parent, h]
    · simp only [Struct.set, h]
      rw [Struct.get_mk_hit _ _ _ _ _ h2, hlen]
      simp [List.getD]
    · intro idx hidx2
      exact absurd hidx2 (by simp)
    · intro _
      refine ⟨by simp [Struct.set, h], by simp [Struct.set, Struct.lookup, h], ?_⟩
      exact Struct.get_mk_miss _ _ _ _ h
  | some idx =>
    have hmem := lookupA_mem _ _ _ h
    have hlt : idx < c.length := hidx _ hmem
    refine ⟨?_, ?_, ?_, ?_⟩
    · simp [Struct.set, Struct.parent, h]
    · simp only [Struct.set, h]
      rw [Struct.get_mk_hit _ _ _ _ _ h]
      simp [List.getD, List.getElem?_set_self, hlt]
    · intro idx2 h2
      refine ⟨?_, by simp [Struct.set, Struct.lookup, h], ?_, ?_⟩
      · rw [Struct.get_mk_hit _ _ _ _ _ h]
        simp [Struct.set, h]
      · simp [Struct.set, Struct.cells, h]
      · intro q
        rw [Struct.get_mk_hit _ _ _ _ _ h, Struct.get_mk_hit _ _ _ _ _ h]
    · intro h2
      exact absurd h2 (by simp)

/-- C7 witness: parent `P` declares `x = 5`, child `C` has no local
fields; `C.get x` delegates to `P`, and after `C.set x 9` the child reads
`9` with its parent component still `P` (reading `5`). -/
theorem record_set_shadows_witness :
    ((Struct.new [] (some (Struct.new [("x", Value.integer 5)] none))).set
        "x" (Value.integer 9)).2.get "x" = some (Value.integer 9) ∧
    ((Struct.new [] (some (Struct.new [("x", Value.integer 5)] none))).set
        "x" (Value.integer 9)).2.parent = some (Struct.new [("x", Value.integer 5)] none) ∧
    (Struct.new [] (some (Struct.new [("x", Value.integer 5)] none))).get "x" =
      some (Value.integer 5) ∧
    (Struct.new [("x", Value.integer 5)] none).get "x" = some (Value.integer 5) := by
  have h := record_set_shadows_parent_intact
    (Struct.new [] (some (Struct.new [("x", Value.integer 5)] none)))
    "x" (Value.integer 9) rfl (by intro kv hkv; simp [Struct.new, Struct.lookup] at hkv)
  exact ⟨h.2.1, h.1.trans rfl, rfl, rfl⟩

/-- C9 (confirmed).  Record equality (`impl PartialEq`) ignores the
parents while the hash (`impl Hash`, embedded as the write trace fed to
the hasher) recursively includes the parent and ignores the field names;
the two are inconsistent in both directions: records equal yet feeding
the hasher differently (same local contents, different parents), and
records feeding the hasher identically yet unequal (same cell values
under different field names). -/
theorem record_eq_hash_inconsistent :
    ∃ a b c d : Struct,
      structEq a b = true ∧ hashTrace a ≠ hashTrace b ∧
      hashTrace c = hashTrace d ∧ structEq c d = false := by
  refine ⟨Struct.new [("a", Value.integer 1)] none,
    Struct.new [("a", Value.integer 1)] (some (Struct.new [] none)),
    Struct.new [("a", Value.integer 1)] none,
    Struct.new [("b", Value.integer 1)] none, ?_, ?_, ?_, ?_⟩
  · rfl
  · intro h
    simp [Struct.new, hashTrace] at h
  · rfl
  · rfl

/-- C8 (confirmed).  The record-as-stream adapter over a record with two
distinct local fields and no parent yields exactly the two (name, value)
rows in declaration order and fails with the end-of-stream error on the
third read; the timed read ignores its timeout argument entirely, returns
a row exactly when the plain read does, and reports a disconnected-stream
error whenever the plain read fails. -/
theorem record_stream_rows_then_eof (n1 n2 : String) (v1 v2 : Value) (hne : n1 ≠ n2) :
    (∃ r1 r2 : StructReader,
      (StructReader.new (Struct.new [(n1, v1), (n2, v2)] none)).read =
        .ok ([Value.str n1, v1], r1) ∧
      r1.read = .ok ([Value.str n2, v2], r2) ∧
      r2.read = .error .eof) ∧
    (∀ (r : StructReader) (t1 t2 : Int), r.read_timeout t1 = r.read_timeout t2) ∧
    (∀ (r : StructReader) (t : Int),
      (∀ e, r.read = .error e → r.read_timeout t = .error .disconnected) ∧
      (∀ x, r.read = .ok x → r.read_timeout t = .ok x)) := by
  refine ⟨⟨⟨1, [("", Value.empty), (n2, v2)]⟩, ⟨2, [("", Value.empty), ("", Value.empty)]⟩,
    ?_, ?_, ?_⟩, ?_, ?_⟩
  · simp [StructReader.new, Struct.new, Struct.mapMerged, Struct.fillMap, fillLocal,
      insertA, lookupA, hne, StructReader.read, List.getD]
  · simp [StructReader.read, List.getD]
  · simp [StructReader.read]
  · intro r t1 t2
    rfl
  · intro r t
    constructor
    · intro e he
      simp [StructReader.read_timeout, he]
    · intro x hx
      simp [StructReader.read_timeout, hx]

/-- C8 witness: concrete two-field record. -/
theorem record_stream_rows_then_eof_witness :
    ∃ r1 r2 : StructReader,
      (StructReader.new (Struct.new [("a", Value.integer 1), ("b", Value.integer 2)] none)).read =
        .ok ([Value.str "a", Value.integer 1], r1) ∧
      r1.read = .ok ([Value.str "b", Value.integer 2], r2) ∧
      r2.read = .error .eof :=
  (record_stream_rows_then_eof "a" "b" (Value.integer 1) (Value.integer 2) (by decide)).1

/-! Claim theorems: scope control signalling (C1, C2). -/

/-- C1 (corrected).  `break` is characterised, readonly flags taken into
account: it succeeds exactly when the first frame on the dynamic chain
(origin first) that is readonly or a loop is a non-readonly loop frame
(`loopSignalOk`); on success it returns true and marks stopped every frame
from the origin up to and including that loop frame, deeper frames
untouched (`markBreak`); otherwise it returns false and leaves every frame
unchanged. -/
theorem break_propagates_to_enclosing_loop (c : List Sc) :
    doBreak c = if loopSignalOk c then (true, markBreak c) else (false, c) :=
  doBreak_eq c

/-- C1 counterexample.  A readonly loop frame: the claim states that a loop
frame is marked stopped and `break` returns true immediately, but the code
checks the readonly flag first and returns false, leaving the frame
unmarked. -/
theorem break_readonly_loop_counterexample :
    (⟨[], true, false, true⟩ : Sc).is_loop = true ∧
    ¬ ((doBreak [⟨[], true, false, true⟩]).1 = true ∧
       (doBreak [⟨[], true, false, true⟩]).2.headI.is_stopped = true) := by
  decide

/-- C2 (corrected).  `continue` is characterised, readonly flags taken into
account: it succeeds exactly under the same condition as `break`
(`loopSignalOk`); on success it returns true and marks stopped every frame
strictly before the absorbing loop frame — the loop frame itself is not
marked (`markCont`); otherwise it returns false and leaves every frame
unchanged. -/
theorem continue_propagates_to_enclosing_loop (c : List Sc) :
    doContinue c = if loopSignalOk c then (true, markCont c) else (false, c) :=
  doContinue_eq c

/-- C2 counterexample.  A readonly loop frame: the claim states that
`continue` issued on a loop frame returns true, but the code checks the
readonly flag first and returns false. -/
theorem continue_readonly_loop_counterexample :
    (⟨[("k", Value.empty)], true, false, true⟩ : Sc).is_loop = true ∧
    (doContinue [⟨[("k", Value.empty)], true, false, true⟩]).1 = false := by
  decide

/-! Claim theorems: scope mutation (C3, C4). -/

/-- C3 counterexample.  A readonly scope whose non-readonly lexical parent
declares `x`: `set` issued on the readonly scope does not fail with a
readonly error — it delegates past the readonly scope and successfully
mutates the parent's binding (the readonly check in `ScopeData::set`
runs only in the scope that locally declares the name). -/
theorem readonly_scope_set_delegates_counterexample :
    (⟨[], false, false, true⟩ : Sc).is_readonly = true ∧
    setChain [⟨[], false, false, true⟩, ⟨[("x", Value.integer 1)], false, false, false⟩]
        "x" (Value.integer 2) =
      (.ok Unit.unit,
       [⟨[], false, false, true⟩, ⟨[("x", Value.integer 2)], false, false, false⟩]) := by
  constructor
  · rfl
  · rfl

/-- C3 (corrected).  A readonly scope rejects `break` and `continue`
(returning false with every flag unchanged) and rejects `set`/`remove` for
names it locally declares (`set` fails with a readonly error, `remove`
returns none, bindings unchanged); but for a name it does not locally
declare, `set` and `remove` delegate to the lexical parent chain
unaffected by the issuing scope's readonly flag, and so can mutate a
non-readonly declaring ancestor. -/
theorem readonly_scope_mutation (s : Sc) (rest : List Sc) (n : String) (v : Value)
    (hro : s.is_readonly = true) :
    doBreak (s :: rest) = (false, s :: rest) ∧
    doContinue (s :: rest) = (false, s :: rest) ∧
    (∀ old, lookupA s.data n = some old →
      setChain (s :: rest) n v = (.error .readonlyScope, s :: rest) ∧
      removeChain (s :: rest) n = (none, s :: rest)) ∧
    (lookupA s.data n = none →
      setChain (s :: rest) n v = ((setChain rest n v).1, s :: (setChain rest n v).2) ∧
      removeChain (s :: rest) n = ((removeChain rest n).1, s :: (removeChain rest n).2)) := by
  refine ⟨by simp [doBreak, hro], by simp [doContinue, hro], ?_, ?_⟩
  · intro old hold
    exact ⟨by simp [setChain, hold, hro], by simp [removeChain, hold, hro]⟩
  · intro hnone
    exact ⟨by simp [setChain, hnone], by simp [removeChain, hnone]⟩

/-- C4 (confirmed).  `set` resolves a name along the lexical chain only:
with no declaring scope anywhere it fails with an unknown-variable error;
with `s` the first declaring scope (every nearer scope misses the name),
it fails with a readonly error when `s` is readonly, fails with a
type-mismatch error when the stored value's runtime type differs from the
new value's, leaving every binding unchanged in all three failure cases,
and otherwise succeeds, replacing exactly the binding in `s`. -/
theorem set_resolves_lexically (n : String) (v : Value) :
    (∀ chain : List Sc, (∀ s ∈ chain, lookupA s.data n = none) →
      setChain chain n v = (.error (.unknownVariable n), chain)) ∧
    (∀ (pre post : List Sc) (s : Sc) (old : Value),
      (∀ t ∈ pre, lookupA t.data n = none) →
      lookupA s.data n = some old →
      (s.is_readonly = true →
        setChain (pre ++ s :: post) n v = (.error .readonlyScope, pre ++ s :: post)) ∧
      (s.is_readonly = false → old.valueType ≠ v.valueType →
        setChain (pre ++ s :: post) n v = (.error .typeMismatch, pre ++ s :: post)) ∧
      (s.is_readonly = false → old.valueType = v.valueType →
        setChain (pre ++ s :: post) n v =
          (.ok Unit.unit, pre ++ { s with data := insertA s.data n v } :: post))) := by
  constructor
  · intro chain hmiss
    induction chain with
    | nil => simp [setChain]
    | cons s rest ih =>
      have h1 : lookupA s.data n = none := hmiss s (by simp)
      have h2 := ih (fun t ht => hmiss t (by simp [ht]))
      simp [setChain, h1, h2]
  · intro pre post s old hmiss hold
    induction pre with
    | nil =>
      refine ⟨fun hro => ?_, fun hro hty => ?_, fun hro hty => ?_⟩
      · simp [setChain, hold, hro]
      · simp [setChain, hold, hro, hty]
      · simp [setChain, hold, hro, hty]
    | cons t pre' ih =>
      have h1 : lookupA t.data n = none := hmiss t (by simp)
      have h2 := ih (fun u hu => hmiss u (by simp [hu]))
      refine ⟨fun hro => ?_, fun hro hty => ?_, fun hro hty => ?_⟩
      · simp [setChain, h1, (h2.1 hro)]
      · simp [setChain, h1, (h2.2.1 hro hty)]
      · simp [setChain, h1, (h2.2.2 hro hty)]

/-- C4 witness: in the chain `[child, parent]` where only `parent`
declares `x` (as an integer), reassigning an integer from the child
succeeds and replaces the binding in `parent`. -/
theorem set_resolves_lexically_witness :
    setChain [⟨[], false, false, false⟩, ⟨[("x", Value.integer 1)], false, false, false⟩]
        "x" (Value.integer 7) =
      (.ok Unit.unit,
       [⟨[], false, false, false⟩, ⟨[("x", Value.integer 7)], false, false, false⟩]) := by
  have h := (set_resolves_lexically "x" (Value.integer 7)).2
    [⟨[], false, false, false⟩] [] ⟨[("x", Value.integer 1)], false, false, false⟩
    (Value.integer 1) (by decide) (by decide)
  exact h.2.2 rfl rfl

/-- C3 witness: a readonly scope locally declaring `y` rejects all four
mutations. -/
theorem readonly_scope_mutation_witness :
    doBreak [⟨[("y", Value.bool true)], false, false, true⟩] =
      (false, [⟨[("y", Value.bool true)], false, false, true⟩]) ∧
    setChain [⟨[("y", Value.bool true)], false, false, true⟩] "y" (Value.bool false) =
      (.error .readonlyScope, [⟨[("y", Value.bool true)], false, false, true⟩]) := by
  have h := readonly_scope_mutation ⟨[("y", Value.bool true)], false, false, true⟩ []
    "y" (Value.bool false) rfl
  exact ⟨h.1, (h.2.2.1 (Value.bool true) (by decide)).1⟩

/-! Claim theorems: the for iteration driver (C10). -/

theorem loopSignalOk_concat_fresh (mids : List Sc)
    (h : ∀ f ∈ mids, f.is_readonly = false ∧ f.is_loop = false) :
    loopSignalOk (mids ++ [freshLoopScope]) = true := by
  induction mids with
  | nil => rfl
  | cons f r ih =>
    obtain ⟨h1, h2⟩ := h f (List.mem_cons_self _ _)
    simp [loopSignalOk, h1, h2, ih (fun g hg => h g (List.mem_cons_of_mem _ hg))]

theorem markBreak_concat_fresh (mids : List Sc)
    (h : ∀ f ∈ mids, f.is_loop = false) :
    markBreak (mids ++ [freshLoopScope]) =
      mids.map markStopped ++ [markStopped freshLoopScope] := by
  induction mids with
  | nil => rfl
  | cons f r ih =>
    simp [markBreak, h f (List.mem_cons_self _ _),
      ih (fun g hg => h g (List.mem_cons_of_mem _ hg))]

theorem markCont_concat_fresh (mids : List Sc)
    (h : ∀ f ∈ mids, f.is_loop = false) :
    markCont (mids ++ [freshLoopScope]) = mids.map markStopped ++ [freshLoopScope] := by
  induction mids with
  | nil => rfl
  | cons f r ih =>
    simp [markCont, h f (List.mem_cons_self _ _),
      ih (fun g hg => h g (List.mem_cons_of_mem _ hg))]

/-- C10 (confirmed; `Scope::create_child` modelled from the spec).  The
`for` driver creates a fresh loop scope (`is_loop = true`, not stopped)
per input row, invokes the body in it, and processes exactly the rows up
to and including the first whose body leaves the scope stopped (all rows
if none does); and over the scope embedding, a `break` issued at the end
of any chain of non-loop, non-readonly frames whose dynamic caller chain
ends at such a fresh loop scope succeeds and marks the loop scope stopped
(so the driver stops after the current row), while a `continue` through
the same chain succeeds yet leaves the loop scope unstopped (so the
driver proceeds with the next row). -/
theorem for_driver_break_continue :
    (∀ {α : Type} (rows : List α) (body : α → Sc → Sc),
      forDriver rows body =
        rows.take (rows.findIdx (fun r => (body r freshLoopScope).is_stopped) + 1)) ∧
    (∀ mids : List Sc, (∀ f ∈ mids, f.is_readonly = false ∧ f.is_loop = false) →
      (doBreak (mids ++ [freshLoopScope])).1 = true ∧
      (doBreak (mids ++ [freshLoopScope])).2.getLast? = some (markStopped freshLoopScope)) ∧
    (∀ mids : List Sc, (∀ f ∈ mids, f.is_readonly = false ∧ f.is_loop = false) →
      (doContinue (mids ++ [freshLoopScope])).1 = true ∧
      (doContinue (mids ++ [freshLoopScope])).2.getLast? = some freshLoopScope) := by
  refine ⟨?_, ?_, ?_⟩
  · intro α rows body
    induction rows with
    | nil => rfl
    | cons r rest ih =>
      cases hb : (body r freshLoopScope).is_stopped with
      | true => simp [forDriver, hb, List.findIdx_cons]
      | false => simp [forDriver, hb, List.findIdx_cons, ih]
  · intro mids h
    rw [doBreak_eq, loopSignalOk_concat_fresh mids h]
    rw [markBreak_concat_fresh mids (fun g hg => (h g hg).2)]
    simp
  · intro mids h
    rw [doContinue_eq, loopSignalOk_concat_fresh mids h]
    rw [markCont_concat_fresh mids (fun g hg => (h g hg).2)]
    simp

/-- C10 witness: a break issued one non-loop call frame below a fresh
loop scope succeeds and marks the loop scope stopped. -/
theorem for_driver_break_continue_witness :
    (doBreak [⟨[], false, false, false⟩, freshLoopScope]).1 = true ∧
    (doBreak [⟨[], false, false, false⟩, freshLoopScope]).2.getLast? =
      some (markStopped freshLoopScope) :=
  for_driver_break_continue.2.1 [⟨[], false, false, false⟩] (by decide)

end Crush
